import Mathlib

/-!
# Verification of the Concordium voting workshop (advanced version)

Shallow embedding of the advanced voting smart contract
(`voting-workshops-2023/advanced/smart-contract/src/lib.rs`) and the
off-chain verifier service
(`voting-workshops-2023/advanced/verifier/src/handlers.rs`, `types.rs`).

Modelling conventions:
* Byte strings (account addresses, country codes, signatures, public keys,
  serialized messages) are `List Nat`, one entry per byte.  Rust `String`
  values that the code only compares and serializes (country codes, voting
  options) are modelled by their UTF-8 byte lists, since Rust string equality
  coincides with equality of the UTF-8 bytes.
* Rust's `BTreeMap` is modelled as an association list with unique keys;
  `entry(k).and_modify(f).or_insert(d)` becomes `entryUpsert`, which updates
  the first entry with key `k` in place or appends a fresh entry.  All
  observations made by the code (lookups and per-option counts) are
  independent of the key ordering that `BTreeMap` additionally maintains.
* Ed25519 signing and verification, the zero-knowledge proof primitive and
  the chain query are external primitives; they are passed to the embedded
  functions as explicit function arguments (oracles).
* The host guarantees that a rejected receive call rolls back state; the
  embedded `vote` returns the pair (result, post-state) and every early
  return yields the unchanged input state, exactly as in the source where
  the only state mutation is the final ballot upsert.
-/

/-- An account address: the 32 bytes of a Concordium `AccountAddress`. -/
abbrev AccountAddress := List Nat

/-- Bytes of an ed25519 public key (`PublicKeyEd25519`). -/
abbrev PublicKeyEd25519 := List Nat

/-- Bytes of an ed25519 signature (`SignatureEd25519`). -/
abbrev SignatureEd25519 := List Nat

/-- Lookup in an association list, mirroring `BTreeMap::get`. -/
def mapLookup {α β : Type} [DecidableEq α] : List (α × β) → α → Option β
  | [], _ => none
  | (k, v) :: rest, a => if k = a then some v else mapLookup rest a

/-- `m.entry(k).and_modify(f).or_insert(d)`: update the entry for `k` in
place when present, otherwise add the entry `(k, d)`. -/
def entryUpsert {α β : Type} [DecidableEq α] (m : List (α × β)) (k : α) (f : β → β) (d : β) :
    List (α × β) :=
  match m with
  | [] => [(k, d)]
  | (k₀, v₀) :: rest =>
    if k₀ = k then (k₀, f v₀) :: rest else (k₀, v₀) :: entryUpsert rest k f d

/-- Number of entries of the association list with the given key. -/
def countKey {α β : Type} [DecidableEq α] (m : List (α × β)) (a : α) : Nat :=
  (m.filter (fun p => p.1 = a)).length

/-- Rust's `Iterator::position`: index of the first element satisfying `p`. -/
def position {α : Type} (p : α → Bool) : List α → Option Nat
  | [] => none
  | a :: l => if p a then some 0 else (position p l).map (· + 1)

namespace Voting

/-- A voting option, i.e. a country code (`type VotingOption = String`),
modelled by its UTF-8 bytes. -/
abbrev VotingOption := List Nat

/-- `type VoteIndex = u32`; values produced by the code are reduced mod 2^32. -/
abbrev VoteIndex := Nat

/-- `type VoteCount = u32`. -/
abbrev VoteCount := Nat

/-- The parameter of the `vote` entry point (`struct VoteParameter`). -/
structure VoteParameter where
  country_code : VotingOption
  signature : SignatureEd25519
deriving DecidableEq, Repr

/-- The parameter of `init` (`struct InitParameter`). -/
structure InitParameter where
  description : String
  options : List VotingOption
  end_time : Nat
  verifier_public_key : PublicKeyEd25519
deriving DecidableEq, Repr

/-- The return value of `view` (`struct VotingView`).  The tally `BTreeMap`
is an association list from option bytes to counts. -/
structure VotingView where
  description : String
  end_time : Nat
  tally : List (VotingOption × VoteCount)
deriving DecidableEq, Repr

/-- The contract state (`struct State`). -/
structure State where
  description : String
  verifier_public_key : PublicKeyEd25519
  ballots : List (AccountAddress × VoteIndex)
  end_time : Nat
  options : List VotingOption
deriving DecidableEq, Repr

/-- The errors of `vote` (`enum VotingError`). -/
inductive VotingError where
  | ParsingFailed
  | VotingFinished
  | InvalidVotingOption
  | ContractVoter
  | InvalidSignature
deriving DecidableEq, Repr

/-- The message data signed by the verifier and re-derived by `vote`
(`struct SignatureMessageData` in the contract's `lib.rs`). -/
structure SignatureMessageData where
  account_address : AccountAddress
  country_code : VotingOption

/-- The contract's `impl Serial for SignatureMessageData`: the 32 account
address bytes followed by the raw country-code bytes. -/
def SignatureMessageData.serial (m : SignatureMessageData) : List Nat :=
  m.account_address ++ m.country_code

/-- `enum Address`: the sender of a receive call. -/
inductive Address where
  | account (addr : AccountAddress)
  | contract (index : Nat)
deriving DecidableEq, Repr

/-- The parts of the receive context that `vote` reads: the slot time in
milliseconds, the sender, and the parameter bytes.  A parameter that fails
to deserialize as a `VoteParameter` is modelled as `none`. -/
structure ReceiveContext where
  slotTime : Nat
  sender : Address
  parameter : Option VoteParameter
deriving DecidableEq, Repr

/-- The `init` contract function: builds the state from the (already
deserialized) parameter, with an empty ballot map. -/
def init (param : InitParameter) : State :=
  { description := param.description
    verifier_public_key := param.verifier_public_key
    ballots := []
    end_time := param.end_time
    options := param.options }

/-- The `vote` contract function.  `verify` is the host's
`verify_ed25519_signature` primitive.  Returns the result together with the
post-call state; every rejection leaves the state as it was, as in the
source, where the only mutation is the final ballot upsert. -/
def vote (verify : PublicKeyEd25519 → SignatureEd25519 → List Nat → Bool)
    (ctx : ReceiveContext) (s : State) : Except VotingError Unit × State :=
  -- Check that the election hasn't finished yet.
  if s.end_time < ctx.slotTime then (.error .VotingFinished, s)
  else
    -- Ensure that the sender is an account.
    match ctx.sender with
    | .contract _ => (.error .ContractVoter, s)
    | .account acc =>
      -- Parse the parameter.
      match ctx.parameter with
      | none => (.error .ParsingFailed, s)
      | some new_vote =>
        -- Find the vote index in state.options.
        match position (fun o => o == new_vote.country_code) s.options with
        | none => (.error .InvalidVotingOption, s)
        | some vote_index =>
          -- `vote_index as u32`
          let new_vote_index : VoteIndex := vote_index % 2 ^ 32
          -- Construct the message and check the signature.
          let message := SignatureMessageData.serial
            { account_address := acc, country_code := new_vote.country_code }
          if verify s.verifier_public_key new_vote.signature message then
            (.ok (), { s with
              ballots := entryUpsert s.ballots acc (fun _ => new_vote_index) new_vote_index })
          else (.error .InvalidSignature, s)

/-- One iteration of the tally loop in `view`: look up the voted-for option
(`options[vote_index]`; the source indexing would panic when out of bounds,
here `getD` supplies a default, and the stored indices are in bounds in all
reachable states) and bump its count. -/
def tallyStep (options : List VotingOption) (tally : List (VotingOption × VoteCount))
    (vote_index : VoteIndex) : List (VotingOption × VoteCount) :=
  entryUpsert tally (options.getD vote_index []) (fun current_count => current_count + 1) 1

/-- The `view` contract function: reads the state and aggregates the ballots
into a tally.  It takes the state immutably and returns only the view, so it
cannot modify the election state. -/
def view (s : State) : VotingView :=
  { description := s.description
    end_time := s.end_time
    tally := s.ballots.foldl (fun t b => tallyStep s.options t b.2) [] }

/-- States reachable from some `init` by receive calls.  `view` takes the
state immutably, so only `vote` transitions appear. -/
inductive Reachable (verify : PublicKeyEd25519 → SignatureEd25519 → List Nat → Bool) :
    State → Prop where
  | init_reached (param : InitParameter) : Reachable verify (init param)
  | vote_reached (ctx : ReceiveContext) (s : State) (h : Reachable verify s) :
      Reachable verify (vote verify ctx s).2

end Voting

namespace Verifier

/-- The error type of the verifier service (`enum ProofError` in
`types.rs`).  `NodeAccess` wraps the underlying query error, modelled as an
abstract code. -/
inductive ProofError where
  | NotAllowed
  | InvalidProofs
  | NodeAccess (err : Nat)
  | Credential
  | StatementNotAllowed
deriving DecidableEq, Repr

/-- One atomic statement of a submitted `Statement`.  Only the
"attribute not in set" kind is inspected by the service; every other claim
kind is collapsed into `otherKind`, which the source's wildcard match arm
rejects.  `set` is the excluded set: a list of attribute values, each given
by its UTF-8 bytes. -/
inductive AtomicStatement where
  | attributeNotInSet (attribute_tag : Nat) (set : List (List Nat))
  | otherKind
deriving DecidableEq, Repr

/-- The on-chain credential at index 0 of an account, as seen by the
service (`AccountCredentialWithoutProofs`): either initial kind (no usable
commitments) or normal kind.  Both carry a credential id, compared by its
bytes; commitments are abstract bytes. -/
inductive AccountCredential where
  | initial (cred_id : List Nat)
  | normal (cred_id : List Nat) (commitments : List Nat)
deriving DecidableEq, Repr

/-- `credential.value.cred_id()`, available for both credential kinds. -/
def AccountCredential.credId : AccountCredential → List Nat
  | .initial cred_id => cred_id
  | .normal cred_id _ => cred_id

/-- The request body (`struct ProofRequest` with `ProofWithContext`
flattened): the statement's atomic claims, the account address, the
submitted credential registration id (by its bytes) and the proof bytes. -/
structure ProofRequest where
  statement : List AtomicStatement
  address : AccountAddress
  credential : List Nat
  proof : List Nat
deriving DecidableEq, Repr

/-- The message data signed by the service (`struct SignatureMessageData`
in the verifier's `types.rs`). -/
structure SignatureMessageData where
  account_address : AccountAddress
  country_code : List Nat

/-- The verifier's `impl Serial for SignatureMessageData`: the 32 account
address bytes, then the two country-code bytes, raw. -/
def SignatureMessageData.serial (m : SignatureMessageData) : List Nat :=
  m.account_address ++ m.country_code

/-- `const COUNTRY_OF_RESIDENCY: u8 = 4`, the reserved attribute tag. -/
def COUNTRY_OF_RESIDENCY : Nat := 4

/-- The statement shape check of `check_proof_worker` (`handlers.rs`): the
statement must be a single "attribute not in set" claim whose tag is
`COUNTRY_OF_RESIDENCY` and whose excluded set is a single 2-byte country
code; that code is extracted.  Anything else is `StatementNotAllowed`. -/
def statementCheck : List AtomicStatement → Except ProofError (List Nat)
  | [AtomicStatement.attributeNotInSet tag set] =>
    if tag = COUNTRY_OF_RESIDENCY ∧ set.length = 1 ∧ (set.headD []).length = 2 then
      .ok (set.headD [])
    else .error .StatementNotAllowed
  | _ => .error .StatementNotAllowed

/-- The fixed challenge `[0u8; 4]` used for every request. -/
def challenge : List Nat := [0, 0, 0, 0]

/-- Externally observable effects of one `check_proof_worker` run, in
order: the chain query for the account info, and the invocation of the
zero-knowledge proof verification primitive. -/
inductive Event where
  | chainQuery
  | proofVerify
deriving DecidableEq, Repr

/-- `check_proof_worker` (`handlers.rs`).  External collaborators are
explicit arguments: `verify` is `Statement::verify` applied to (statement,
challenge, global context, credential id bytes, commitments, proof bytes);
`sign` is the service keypair's deterministic signature over a message;
`chain` is the outcome of the `get_account_info` query, giving the
credential at index 0 (or `none` when the account has no credential there),
or a query error.  Returns the result (signature bytes on success) together
with the trace of effects performed. -/
def check_proof_worker
    (verify : List AtomicStatement → List Nat → List Nat → List Nat → List Nat → List Nat → Bool)
    (sign : List Nat → List Nat)
    (global_context : List Nat)
    (chain : AccountAddress → Except Nat (Option AccountCredential))
    (request : ProofRequest) : Except ProofError (List Nat) × List Event :=
  let cred_id := request.credential
  match chain request.address with
  | .error e => (.error (.NodeAccess e), [.chainQuery])
  | .ok acc_credential_0 =>
    match acc_credential_0 with
    | none => (.error .Credential, [.chainQuery])
    | some credential =>
      if credential.credId ≠ cred_id then (.error .Credential, [.chainQuery])
      else
        match credential with
        | .initial _ => (.error .NotAllowed, [.chainQuery])
        | .normal _ commitments =>
          match statementCheck request.statement with
          | .error e => (.error e, [.chainQuery])
          | .ok country_code =>
            if verify request.statement challenge global_context cred_id commitments
                request.proof then
              let message := SignatureMessageData.serial
                { account_address := request.address, country_code := country_code }
              (.ok (sign message), [.chainQuery, .proofVerify])
            else (.error .InvalidProofs, [.chainQuery, .proofVerify])

end Verifier

/-! ### Concrete data for sample runs

Byte-level constants used to run the embedded functions on concrete inputs:
two account addresses, the country codes of the integration-test scenario
("DK", "DE", "IT" as UTF-8 bytes), an election, and oracles for the external
primitives. -/

/-- An account address of all 0s. -/
def addrA : AccountAddress := List.replicate 32 0

/-- An account address of all 1s. -/
def addrB : AccountAddress := List.replicate 32 1

/-- "DK" as UTF-8 bytes. -/
def optDK : Voting.VotingOption := [68, 75]

/-- "DE" as UTF-8 bytes. -/
def optDE : Voting.VotingOption := [68, 69]

/-- "IT" as UTF-8 bytes. -/
def optIT : Voting.VotingOption := [73, 84]

/-- A sample election: options ["DK", "DE", "IT"], end time 100. -/
def demoInit : Voting.InitParameter :=
  { description := "Concordium EuroVision"
    options := [optDK, optDE, optIT]
    end_time := 100
    verifier_public_key := [7] }

/-- An ed25519 oracle that accepts every signature, used to drive concrete
runs of `vote` (the signature check itself is external). -/
def acceptAllVerify : PublicKeyEd25519 → SignatureEd25519 → List Nat → Bool :=
  fun _ _ _ => true

/-- A receive context at slot time 0 with an account sender and a vote for
the given country code. -/
def demoCtx (a : AccountAddress) (cc : Voting.VotingOption) : Voting.ReceiveContext :=
  { slotTime := 0
    sender := .account a
    parameter := some { country_code := cc, signature := [1] } }

/-- State after A votes "DE" in the fresh election. -/
def demoS1 : Voting.State :=
  (Voting.vote acceptAllVerify (demoCtx addrA optDE) (Voting.init demoInit)).2

/-- State after B then votes "DK". -/
def demoS2 : Voting.State := (Voting.vote acceptAllVerify (demoCtx addrB optDK) demoS1).2

/-- State after A then changes their vote to "DK". -/
def demoS3 : Voting.State := (Voting.vote acceptAllVerify (demoCtx addrA optDK) demoS2).2

/-- A proof request with an empty (hence shape-invalid) statement. -/
def cexRequest : Verifier.ProofRequest :=
  { statement := [], address := addrA, credential := [], proof := [] }

/-- A chain oracle for an account that exists but has no credential at
index 0. -/
def cexChainNoCred : AccountAddress → Except Nat (Option Verifier.AccountCredential) :=
  fun _ => .ok none

/-- A chain oracle for an account with a normal-kind credential at index 0
whose id bytes are empty (matching `cexRequest.credential`). -/
def cexChainNormal : AccountAddress → Except Nat (Option Verifier.AccountCredential) :=
  fun _ => .ok (some (.normal [] []))

/-- A proof oracle that accepts every proof. -/
def cexVerify :
    List Verifier.AtomicStatement → List Nat → List Nat → List Nat → List Nat → List Nat → Bool :=
  fun _ _ _ _ _ _ => true

/-- A signing oracle (the embedding treats ed25519 signing as external). -/
def cexSign : List Nat → List Nat := fun m => m

/-- A receive context whose slot time 101 is past the demo election's end
time 100. -/
def lateCtx : Voting.ReceiveContext :=
  { slotTime := 101
    sender := .account addrA
    parameter := some { country_code := optDE, signature := [1] } }

/-- A well-shaped statement: one "attribute not in set" claim over the
residency tag with the single 2-byte code "DK". -/
def okStatement : List Verifier.AtomicStatement :=
  [.attributeNotInSet 4 [[68, 75]]]

/-- The expected tally count for one option: `prev` is the count already in
the accumulator, `c` the number of matching ballots folded over. -/
def tallyExpect (prev : Option Nat) (c : Nat) : Option Nat :=
  match prev with
  | none => if c = 0 then none else some c
  | some v => some (v + c)

/-! ### Helper lemmas about the association-list map operations -/

theorem mapLookup_entryUpsert_self {α β : Type} [DecidableEq α]
    (m : List (α × β)) (k : α) (f : β → β) (d : β) :
    mapLookup (entryUpsert m k f d) k =
      some (match mapLookup m k with | none => d | some v => f v) := by
  induction m with
  | nil => simp [entryUpsert, mapLookup]
  | cons p rest ih =>
    obtain ⟨k₀, v₀⟩ := p
    by_cases h : k₀ = k
    · simp [entryUpsert, mapLookup, h]
    · simp [entryUpsert, mapLookup, h, ih]

theorem mapLookup_entryUpsert_ne {α β : Type} [DecidableEq α]
    (m : List (α × β)) (k a : α) (f : β → β) (d : β) (hne : a ≠ k) :
    mapLookup (entryUpsert m k f d) a = mapLookup m a := by
  induction m with
  | nil => simp [entryUpsert, mapLookup, Ne.symm hne]
  | cons p rest ih =>
    obtain ⟨k₀, v₀⟩ := p
    by_cases h : k₀ = k
    · subst h
      simp [entryUpsert, mapLookup, Ne.symm hne]
    · simp [entryUpsert, mapLookup, h, ih]

theorem mapLookup_entryUpsert_const {α β : Type} [DecidableEq α]
    (m : List (α × β)) (k : α) (v : β) :
    mapLookup (entryUpsert m k (fun _ => v) v) k = some v := by
  rw [mapLookup_entryUpsert_self]
  cases mapLookup m k <;> rfl

theorem mem_entryUpsert_const {α β : Type} [DecidableEq α]
    {m : List (α × β)} {k : α} {v : β} {p : α × β}
    (h : p ∈ entryUpsert m k (fun _ => v) v) : p.2 = v ∨ p ∈ m := by
  induction m with
  | nil =>
    simp only [entryUpsert, List.mem_singleton] at h
    exact Or.inl (by rw [h])
  | cons q rest ih =>
    obtain ⟨k₀, v₀⟩ := q
    by_cases hk : k₀ = k
    · simp only [entryUpsert, if_pos hk, List.mem_cons] at h
      rcases h with h | h
      · exact Or.inl (by rw [h])
      · exact Or.inr (List.mem_cons_of_mem _ h)
    · simp only [entryUpsert, if_neg hk, List.mem_cons] at h
      rcases h with h | h
      · exact Or.inr (List.mem_cons.mpr (Or.inl h))
      · rcases ih h with h2 | h2
        · exact Or.inl h2
        · exact Or.inr (List.mem_cons_of_mem _ h2)

theorem countKey_cons {α β : Type} [DecidableEq α] (k₀ : α) (v₀ : β)
    (rest : List (α × β)) (a : α) :
    countKey ((k₀, v₀) :: rest) a = (if k₀ = a then 1 else 0) + countKey rest a := by
  by_cases h : k₀ = a
  · simp [countKey, List.filter_cons, h]
    omega
  · simp [countKey, List.filter_cons, h]

theorem countKey_entryUpsert_self {α β : Type} [DecidableEq α]
    (m : List (α × β)) (k : α) (f : β → β) (d : β) (h : countKey m k ≤ 1) :
    countKey (entryUpsert m k f d) k = 1 := by
  induction m with
  | nil => simp [entryUpsert, countKey]
  | cons p rest ih =>
    obtain ⟨k₀, v₀⟩ := p
    rw [countKey_cons] at h
    by_cases hk : k₀ = k
    · rw [if_pos hk] at h
      have hrest : countKey rest k = 0 := by omega
      have he : entryUpsert ((k₀, v₀) :: rest) k f d = (k₀, f v₀) :: rest := by
        simp [entryUpsert, hk]
      rw [he, countKey_cons, if_pos hk, hrest]
    · rw [if_neg hk] at h
      have he : entryUpsert ((k₀, v₀) :: rest) k f d =
          (k₀, v₀) :: entryUpsert rest k f d := by
        simp [entryUpsert, hk]
      rw [he, countKey_cons, if_neg hk, ih (by omega)]

theorem position_lt_length {α : Type} {p : α → Bool} {l : List α} {i : Nat}
    (h : position p l = some i) : i < l.length := by
  induction l generalizing i with
  | nil => simp [position] at h
  | cons a rest ih =>
    by_cases ha : p a
    · simp only [position, if_pos ha, Option.some.injEq] at h
      subst h
      simp
    · simp only [position, if_neg ha, Option.map_eq_some'] at h
      obtain ⟨j, hj, hij⟩ := h
      have := ih hj
      subst hij
      simp only [List.length_cons]
      omega

/-! ### Helper lemmas about `vote` and the tally -/

/-- Complete case analysis of one `vote` call: either it rejects and
returns the state unchanged, or every check passed and it upserts the
sender's ballot. -/
theorem vote_cases (verify : PublicKeyEd25519 → SignatureEd25519 → List Nat → Bool)
    (ctx : Voting.ReceiveContext) (s : Voting.State) :
    (∃ e, Voting.vote verify ctx s = (.error e, s)) ∨
    ∃ acc new_vote vote_index,
      ctx.sender = .account acc ∧
      ctx.parameter = some new_vote ∧
      ctx.slotTime ≤ s.end_time ∧
      position (fun o => o == new_vote.country_code) s.options = some vote_index ∧
      verify s.verifier_public_key new_vote.signature
        (Voting.SignatureMessageData.serial
          { account_address := acc, country_code := new_vote.country_code }) = true ∧
      Voting.vote verify ctx s = (.ok (), { s with
        ballots :=
          entryUpsert s.ballots acc (fun _ => vote_index % 2 ^ 32) (vote_index % 2 ^ 32) }) := by
  by_cases h1 : s.end_time < ctx.slotTime
  · exact Or.inl ⟨.VotingFinished, by simp [Voting.vote, h1]⟩
  · cases hs : ctx.sender with
    | contract i => exact Or.inl ⟨.ContractVoter, by simp [Voting.vote, h1, hs]⟩
    | account acc =>
      cases hp : ctx.parameter with
      | none => exact Or.inl ⟨.ParsingFailed, by simp [Voting.vote, h1, hs, hp]⟩
      | some new_vote =>
        cases hpos : position (fun o => o == new_vote.country_code) s.options with
        | none =>
          exact Or.inl ⟨.InvalidVotingOption, by simp [Voting.vote, h1, hs, hp, hpos]⟩
        | some vote_index =>
          by_cases hv : verify s.verifier_public_key new_vote.signature
              (Voting.SignatureMessageData.serial
                { account_address := acc, country_code := new_vote.country_code }) = true
          · exact Or.inr ⟨acc, new_vote, vote_index, rfl, rfl, Nat.not_lt.mp h1, hpos, hv,
              by simp [Voting.vote, h1, hs, hp, hpos, hv]⟩
          · exact Or.inl ⟨.InvalidSignature, by simp [Voting.vote, h1, hs, hp, hpos, hv]⟩

/-- Forward evaluation of `vote` when every check passes. -/
theorem vote_eval_ok (verify : PublicKeyEd25519 → SignatureEd25519 → List Nat → Bool)
    (ctx : Voting.ReceiveContext) (s : Voting.State) (acc : AccountAddress)
    (new_vote : Voting.VoteParameter) (vote_index : Nat)
    (htime : ctx.slotTime ≤ s.end_time)
    (hsender : ctx.sender = .account acc)
    (hparam : ctx.parameter = some new_vote)
    (hpos : position (fun o => o == new_vote.country_code) s.options = some vote_index)
    (hsig : verify s.verifier_public_key new_vote.signature
      (Voting.SignatureMessageData.serial
        { account_address := acc, country_code := new_vote.country_code }) = true) :
    Voting.vote verify ctx s = (.ok (), { s with
      ballots :=
        entryUpsert s.ballots acc (fun _ => vote_index % 2 ^ 32) (vote_index % 2 ^ 32) }) := by
  simp [Voting.vote, Nat.not_lt.mpr htime, hsender, hparam, hpos, hsig]

/-- Lookup in the tally accumulated by the `view` loop: each option is
mapped to its previous count plus the number of ballots resolving to it. -/
theorem mapLookup_tally_foldl (options : List Voting.VotingOption)
    (bs : List (AccountAddress × Voting.VoteIndex))
    (t : List (Voting.VotingOption × Nat)) (opt : Voting.VotingOption) :
    mapLookup (bs.foldl (fun t b => Voting.tallyStep options t b.2) t) opt =
      tallyExpect (mapLookup t opt)
        ((bs.filter (fun b => options.getD b.2 [] == opt)).length) := by
  induction bs generalizing t with
  | nil => cases h : mapLookup t opt <;> simp [tallyExpect, h]
  | cons b rest ih =>
    simp only [List.foldl_cons, List.filter_cons]
    rw [ih]
    by_cases hm : options.getD b.2 [] = opt
    · have hb : (options.getD b.2 [] == opt) = true := beq_iff_eq.mpr hm
      rw [if_pos hb]
      unfold Voting.tallyStep
      rw [hm, mapLookup_entryUpsert_self]
      cases hl : mapLookup t opt with
      | none => simp [tallyExpect, Nat.add_comm]
      | some v =>
        simp only [tallyExpect, List.length_cons, Option.some.injEq]
        rw [Nat.add_assoc, Nat.add_comm 1]
    · have hb : (options.getD b.2 [] == opt) = false := by
        simpa using hm
      rw [if_neg (by rw [hb]; exact Bool.false_ne_true)]
      unfold Voting.tallyStep
      rw [mapLookup_entryUpsert_ne _ _ _ _ _ (Ne.symm hm)]

/-! ### Claim theorems -/

/-- C1: for every sender account address, every country code that occurs in
the options list (at first index `i`), and every attestation accepted by the
signature primitive for the verifier key over the canonical message
(address bytes followed by country-code bytes), calling `vote` at or before
`end_time` succeeds and afterwards `ballots[senderAddress]` is the index of
the country code in `options`.  (`options` has at most 2^32 entries; the
parameter size limit enforces this in the deployed contract.) -/
theorem c1_valid_vote_succeeds_and_records_index
    (verify : PublicKeyEd25519 → SignatureEd25519 → List Nat → Bool)
    (ctx : Voting.ReceiveContext) (s : Voting.State) (acc : AccountAddress)
    (new_vote : Voting.VoteParameter) (i : Nat)
    (htime : ctx.slotTime ≤ s.end_time)
    (hsender : ctx.sender = .account acc)
    (hparam : ctx.parameter = some new_vote)
    (hidx : position (fun o => o == new_vote.country_code) s.options = some i)
    (hlen : s.options.length ≤ 2 ^ 32)
    (hsig : verify s.verifier_public_key new_vote.signature
      (Voting.SignatureMessageData.serial
        { account_address := acc, country_code := new_vote.country_code }) = true) :
    (Voting.vote verify ctx s).1 = .ok () ∧
    mapLookup (Voting.vote verify ctx s).2.ballots acc = some i := by
  have h := vote_eval_ok verify ctx s acc new_vote i htime hsender hparam hidx hsig
  have hmod : i % 2 ^ 32 = i :=
    Nat.mod_eq_of_lt (Nat.lt_of_lt_of_le (position_lt_length hidx) hlen)
  rw [h]
  refine ⟨rfl, ?_⟩
  rw [mapLookup_entryUpsert_const, hmod]

/-- Witness for C1: account A votes "DE" (index 1) in the demo election. -/
theorem c1_witness :
    (Voting.vote acceptAllVerify (demoCtx addrA optDE) (Voting.init demoInit)).1 = .ok () ∧
    mapLookup
      (Voting.vote acceptAllVerify (demoCtx addrA optDE) (Voting.init demoInit)).2.ballots
      addrA = some 1 :=
  c1_valid_vote_succeeds_and_records_index acceptAllVerify (demoCtx addrA optDE)
    (Voting.init demoInit) addrA { country_code := optDE, signature := [1] } 1
    (by decide) rfl rfl (by decide) (by decide) rfl

/-- C2: whenever `vote` returns any error, the state after the call equals
the state before the call; in particular, with slot time strictly past
`end_time` it fails with `VotingFinished` and the state is unchanged. -/
theorem c2_vote_error_leaves_state_unchanged
    (verify : PublicKeyEd25519 → SignatureEd25519 → List Nat → Bool)
    (ctx : Voting.ReceiveContext) (s : Voting.State) :
    (∀ e, (Voting.vote verify ctx s).1 = .error e → (Voting.vote verify ctx s).2 = s) ∧
    (s.end_time < ctx.slotTime →
      (Voting.vote verify ctx s).1 = .error .VotingFinished ∧
      (Voting.vote verify ctx s).2 = s) := by
  constructor
  · intro e he
    rcases vote_cases verify ctx s with ⟨e2, hp⟩ | ⟨acc, nv, vi, _, _, _, _, _, hp⟩
    · rw [hp]
    · rw [hp] at he
      simp at he
  · intro h
    constructor <;> simp [Voting.vote, h]

/-- Witness for C2: voting at slot time 101 in the demo election (end time
100) fails with `VotingFinished` and leaves the state unchanged. -/
theorem c2_witness :
    (Voting.vote acceptAllVerify lateCtx (Voting.init demoInit)).1 = .error .VotingFinished ∧
    (Voting.vote acceptAllVerify lateCtx (Voting.init demoInit)).2 = Voting.init demoInit :=
  (c2_vote_error_leaves_state_unchanged acceptAllVerify lateCtx (Voting.init demoInit)).2
    (by decide)

/-- C3: the byte sequence the verification service signs and the byte
sequence the on-chain `vote` re-derives and verifies against are the same
serialization of `SignatureMessageData`: the account address bytes
immediately followed by the raw country-code bytes, with no length prefix
or delimiter. -/
theorem c3_signature_message_serializations_agree (addr : AccountAddress) (cc : List Nat) :
    Verifier.SignatureMessageData.serial { account_address := addr, country_code := cc } =
      Voting.SignatureMessageData.serial { account_address := addr, country_code := cc } ∧
    Verifier.SignatureMessageData.serial { account_address := addr, country_code := cc } =
      addr ++ cc :=
  ⟨rfl, rfl⟩

/-- C6: every `vote` call, successful or not, leaves `description`,
`verifier_public_key`, `options` and `end_time` unchanged; only `ballots`
may differ.  Those four fields are exactly the values given at `init`
(which also starts with an empty ballot map). -/
theorem c6_vote_preserves_election_parameters
    (verify : PublicKeyEd25519 → SignatureEd25519 → List Nat → Bool)
    (ctx : Voting.ReceiveContext) (s : Voting.State) (p : Voting.InitParameter) :
    ((Voting.vote verify ctx s).2.description = s.description ∧
     (Voting.vote verify ctx s).2.verifier_public_key = s.verifier_public_key ∧
     (Voting.vote verify ctx s).2.options = s.options ∧
     (Voting.vote verify ctx s).2.end_time = s.end_time) ∧
    ((Voting.init p).description = p.description ∧
     (Voting.init p).verifier_public_key = p.verifier_public_key ∧
     (Voting.init p).options = p.options ∧
     (Voting.init p).end_time = p.end_time ∧
     (Voting.init p).ballots = []) := by
  constructor
  · rcases vote_cases verify ctx s with ⟨e, hp⟩ | ⟨acc, nv, vi, _, _, _, _, _, hp⟩ <;>
      rw [hp] <;> exact ⟨rfl, rfl, rfl, rfl⟩
  · exact ⟨rfl, rfl, rfl, rfl, rfl⟩

/-- C7: two successful votes by the same account (starting from a state
whose ballot map has at most one entry for that account, as every reachable
state does) leave exactly one ballot entry for that account, holding the
index of the option of the later vote. -/
theorem c7_revote_last_write_wins
    (verify : PublicKeyEd25519 → SignatureEd25519 → List Nat → Bool)
    (ctx1 ctx2 : Voting.ReceiveContext) (s : Voting.State) (a : AccountAddress)
    (hone : countKey s.ballots a ≤ 1)
    (hlen : s.options.length ≤ 2 ^ 32)
    (hs1 : ctx1.sender = .account a)
    (hs2 : ctx2.sender = .account a)
    (h1 : (Voting.vote verify ctx1 s).1 = .ok ())
    (h2 : (Voting.vote verify ctx2 (Voting.vote verify ctx1 s).2).1 = .ok ()) :
    countKey (Voting.vote verify ctx2 (Voting.vote verify ctx1 s).2).2.ballots a = 1 ∧
    ∃ p i, ctx2.parameter = some p ∧
      position (fun o => o == p.country_code) s.options = some i ∧
      mapLookup (Voting.vote verify ctx2 (Voting.vote verify ctx1 s).2).2.ballots a =
        some i := by
  rcases vote_cases verify ctx1 s with ⟨e, hp⟩ | ⟨acc1, nv1, vi1, hsd1, hp1, ht1, hpos1, hv1, hp⟩
  · rw [hp] at h1
    simp at h1
  · have hacc1 : acc1 = a := by
      rw [hsd1] at hs1
      exact Voting.Address.account.inj hs1
    subst hacc1
    have hballots1 : (Voting.vote verify ctx1 s).2.ballots =
        entryUpsert s.ballots acc1 (fun _ => vi1 % 2 ^ 32) (vi1 % 2 ^ 32) := by
      rw [hp]
    have hopts1 : (Voting.vote verify ctx1 s).2.options = s.options := by
      rw [hp]
    rcases vote_cases verify ctx2 (Voting.vote verify ctx1 s).2 with
      ⟨e, hq⟩ | ⟨acc2, nv2, vi2, hsd2, hp2, ht2, hpos2, hv2, hq⟩
    · rw [hq] at h2
      simp at h2
    · have hacc2 : acc2 = acc1 := by
        rw [hsd2] at hs2
        exact Voting.Address.account.inj hs2
      subst hacc2
      have hballots2 : (Voting.vote verify ctx2 (Voting.vote verify ctx1 s).2).2.ballots =
          entryUpsert (Voting.vote verify ctx1 s).2.ballots acc2
            (fun _ => vi2 % 2 ^ 32) (vi2 % 2 ^ 32) := by
        rw [hq]
      have hcnt1 : countKey (Voting.vote verify ctx1 s).2.ballots acc2 = 1 := by
        rw [hballots1]
        exact countKey_entryUpsert_self s.ballots acc2 _ _ hone
      have hlt : vi2 < s.options.length := by
        have h3 := position_lt_length hpos2
        rwa [hopts1] at h3
      have hmod : vi2 % 2 ^ 32 = vi2 :=
        Nat.mod_eq_of_lt (Nat.lt_of_lt_of_le hlt hlen)
      refine ⟨?_, nv2, vi2, hp2, ?_, ?_⟩
      · rw [hballots2]
        exact countKey_entryUpsert_self _ acc2 _ _ (le_of_eq hcnt1)
      · rw [hopts1] at hpos2
        exact hpos2
      · rw [hballots2, mapLookup_entryUpsert_const, hmod]

/-- Witness for C7: account A votes "DE" then changes their vote to "DK"
(index 0) in the demo election. -/
theorem c7_witness :
    countKey (Voting.vote acceptAllVerify (demoCtx addrA optDK)
      (Voting.vote acceptAllVerify (demoCtx addrA optDE) (Voting.init demoInit)).2).2.ballots
      addrA = 1 ∧
    ∃ p i, (demoCtx addrA optDK).parameter = some p ∧
      position (fun o => o == p.country_code) (Voting.init demoInit).options = some i ∧
      mapLookup (Voting.vote acceptAllVerify (demoCtx addrA optDK)
        (Voting.vote acceptAllVerify (demoCtx addrA optDE) (Voting.init demoInit)).2).2.ballots
        addrA = some i :=
  c7_revote_last_write_wins acceptAllVerify (demoCtx addrA optDE) (demoCtx addrA optDK)
    (Voting.init demoInit) addrA (by decide) (by decide) rfl rfl rfl rfl

/-- C8: in every state reachable from `init` by `vote` calls (`view` takes
the state immutably and cannot change it), every stored `VoteIndex` is
strictly below the length of `options`, so the `options[vote_index]`
indexing in `view` is always in bounds. -/
theorem c8_ballot_indices_in_bounds
    (verify : PublicKeyEd25519 → SignatureEd25519 → List Nat → Bool)
    {s : Voting.State} (hs : Voting.Reachable verify s) :
    ∀ p ∈ s.ballots, p.2 < s.options.length := by
  induction hs with
  | init_reached param =>
    intro p hp
    simp [Voting.init] at hp
  | vote_reached ctx s0 hr ih =>
    intro p hp
    rcases vote_cases verify ctx s0 with ⟨e, hq⟩ | ⟨acc, nv, vi, _, _, _, hpos, _, hq⟩
    · rw [hq] at hp ⊢
      exact ih p hp
    · rw [hq] at hp ⊢
      have hp2 : p ∈ entryUpsert s0.ballots acc (fun _ => vi % 2 ^ 32) (vi % 2 ^ 32) := hp
      show p.2 < s0.options.length
      rcases mem_entryUpsert_const hp2 with h2 | h2
      · rw [h2]
        exact Nat.lt_of_le_of_lt (Nat.mod_le vi (2 ^ 32)) (position_lt_length hpos)
      · exact ih p h2

/-- Witness for C8: in the reachable state where A has voted "DE", the
stored index 1 is below the number of options, 3. -/
theorem c8_witness :
    ((addrA, 1) : AccountAddress × Voting.VoteIndex).2 <
      (Voting.vote acceptAllVerify (demoCtx addrA optDE)
        (Voting.init demoInit)).2.options.length :=
  c8_ballot_indices_in_bounds acceptAllVerify
    (Voting.Reachable.vote_reached (demoCtx addrA optDE) (Voting.init demoInit)
      (Voting.Reachable.init_reached demoInit))
    (addrA, 1) (by decide)

/-- C9: `view` reads the state without modifying it and returns the stored
description, the stored end time, and a tally in which each option is
mapped to the number of ballots resolving to it, options with zero votes
being absent; concretely, after A votes "DE", B votes "DK" and A re-votes
"DK" in the demo election, the tally is exactly {"DK": 2}, with no entry
for "DE" or "IT". -/
theorem c9_view_tally_counts :
    (∀ (s : Voting.State) (opt : Voting.VotingOption),
      (Voting.view s).description = s.description ∧
      (Voting.view s).end_time = s.end_time ∧
      mapLookup (Voting.view s).tally opt =
        (if (s.ballots.filter (fun b => s.options.getD b.2 [] == opt)).length = 0 then none
         else some (s.ballots.filter (fun b => s.options.getD b.2 [] == opt)).length)) ∧
    ((Voting.view demoS3).tally = [(optDK, 2)] ∧
     mapLookup (Voting.view demoS3).tally optDE = none ∧
     mapLookup (Voting.view demoS3).tally optIT = none) := by
  constructor
  · intro s opt
    refine ⟨rfl, rfl, ?_⟩
    show mapLookup (s.ballots.foldl (fun t b => Voting.tallyStep s.options t b.2) []) opt = _
    rw [mapLookup_tally_foldl]
    rfl
  · exact ⟨by decide, by decide, by decide⟩

/-- C5: the statement validation accepts exactly the statements consisting
of one "attribute not in set" claim whose tag is the reserved residency tag
and whose excluded set is a single 2-byte element; on acceptance it extracts
that element, and on any shape mismatch it returns `StatementNotAllowed`. -/
theorem c5_statement_validation_characterization (ss : List Verifier.AtomicStatement) :
    (∀ cc, Verifier.statementCheck ss = .ok cc ↔
      (ss = [.attributeNotInSet Verifier.COUNTRY_OF_RESIDENCY [cc]] ∧ cc.length = 2)) ∧
    ((∀ cc, ¬(ss = [.attributeNotInSet Verifier.COUNTRY_OF_RESIDENCY [cc]] ∧ cc.length = 2)) →
      Verifier.statementCheck ss = .error .StatementNotAllowed) := by
  cases ss with
  | nil => exact ⟨fun cc => by simp [Verifier.statementCheck], fun _ => rfl⟩
  | cons a tail =>
    cases tail with
    | cons b rest =>
      exact ⟨fun cc => by simp [Verifier.statementCheck], fun _ => by cases a <;> rfl⟩
    | nil =>
      cases a with
      | otherKind => exact ⟨fun cc => by simp [Verifier.statementCheck], fun _ => rfl⟩
      | attributeNotInSet tag set =>
        cases set with
        | nil =>
          exact ⟨fun cc => by simp [Verifier.statementCheck],
            fun _ => by simp [Verifier.statementCheck]⟩
        | cons c rest2 =>
          cases rest2 with
          | cons d rest3 =>
            exact ⟨fun cc => by simp [Verifier.statementCheck],
              fun _ => by simp [Verifier.statementCheck]⟩
          | nil =>
            have hred : Verifier.statementCheck [.attributeNotInSet tag [c]] =
                if tag = Verifier.COUNTRY_OF_RESIDENCY ∧ c.length = 2 then .ok c
                else .error .StatementNotAllowed := by
              simp [Verifier.statementCheck]
            rw [hred]
            by_cases hcond : tag = Verifier.COUNTRY_OF_RESIDENCY ∧ c.length = 2
            · obtain ⟨ht, hl2⟩ := hcond
              subst ht
              rw [if_pos ⟨rfl, hl2⟩]
              constructor
              · intro cc
                constructor
                · intro h
                  have hcc : c = cc := by simpa using h
                  subst hcc
                  exact ⟨rfl, hl2⟩
                · rintro ⟨hl, -⟩
                  have hcc : c = cc := by simpa using hl
                  rw [hcc]
              · intro hno
                exact absurd ⟨rfl, hl2⟩ (hno c)
            · rw [if_neg hcond]
              constructor
              · intro cc
                constructor
                · intro h
                  simp at h
                · rintro ⟨hl, hcl⟩
                  obtain ⟨ht, hcc⟩ : tag = Verifier.COUNTRY_OF_RESIDENCY ∧ c = cc := by
                    simpa using hl
                  exact absurd ⟨ht, by rw [hcc]; exact hcl⟩ hcond
              · intro _
                rfl

/-- Witness for C5: the well-shaped demo statement is accepted with "DK"
extracted. -/
theorem c5_witness : Verifier.statementCheck okStatement = .ok [68, 75] :=
  ((c5_statement_validation_characterization okStatement).1 [68, 75]).mpr ⟨rfl, rfl⟩

/-- Counterexample to C4 as stated: this request's statement fails the
shape check, yet the service does not fail with `StatementNotAllowed` — the
chain query and the credential-at-index-0 check run first, so it fails with
`Credential` after having queried the chain. -/
theorem c4_counterexample :
    Verifier.statementCheck cexRequest.statement = .error .StatementNotAllowed ∧
    (Verifier.check_proof_worker cexVerify cexSign [] cexChainNoCred cexRequest).1 =
      .error .Credential ∧
    (Verifier.check_proof_worker cexVerify cexSign [] cexChainNoCred cexRequest).1 ≠
      .error .StatementNotAllowed ∧
    Verifier.Event.chainQuery ∈
      (Verifier.check_proof_worker cexVerify cexSign [] cexChainNoCred cexRequest).2 := by
  refine ⟨rfl, rfl, ?_, ?_⟩
  · intro h
    have h1 : (Verifier.check_proof_worker cexVerify cexSign [] cexChainNoCred cexRequest).1 =
        .error .Credential := rfl
    rw [h1] at h
    exact Verifier.ProofError.noConfusion (Except.error.inj h)
  · exact List.mem_singleton.mpr rfl

/-- C4 (amended): when the chain query succeeds, the credential at index 0
is of normal kind and its id matches the submitted one, a request whose
statement fails the shape check is rejected with `StatementNotAllowed`
without invoking the proof-verification primitive.  (The shape check runs
after the chain query and the credential checks, not before them.) -/
theorem c4_shape_reject_skips_proof_primitive
    (verify : List Verifier.AtomicStatement → List Nat → List Nat → List Nat → List Nat →
      List Nat → Bool)
    (sign : List Nat → List Nat) (gc : List Nat)
    (chain : AccountAddress → Except Nat (Option Verifier.AccountCredential))
    (req : Verifier.ProofRequest) (cid comms : List Nat)
    (hchain : chain req.address = .ok (some (.normal cid comms)))
    (hid : cid = req.credential)
    (hshape : Verifier.statementCheck req.statement = .error .StatementNotAllowed) :
    (Verifier.check_proof_worker verify sign gc chain req).1 = .error .StatementNotAllowed ∧
    Verifier.Event.proofVerify ∉
      (Verifier.check_proof_worker verify sign gc chain req).2 := by
  subst hid
  constructor <;>
    simp [Verifier.check_proof_worker, hchain, hshape, Verifier.AccountCredential.credId]

/-- Witness for C4 (amended): the empty-statement request against an
account whose index-0 credential is normal with matching id. -/
theorem c4_amended_witness :
    (Verifier.check_proof_worker cexVerify cexSign [] cexChainNormal cexRequest).1 =
      .error .StatementNotAllowed ∧
    Verifier.Event.proofVerify ∉
      (Verifier.check_proof_worker cexVerify cexSign [] cexChainNormal cexRequest).2 :=
  c4_shape_reject_skips_proof_primitive cexVerify cexSign [] cexChainNormal cexRequest [] []
    rfl rfl rfl

/-- C10: the `Credential` error covers both the account with no credential
at index 0 at all and the credential whose id does not match the submitted
one. -/
theorem c10_credential_error_covers_absent_and_mismatch
    (verify : List Verifier.AtomicStatement → List Nat → List Nat → List Nat → List Nat →
      List Nat → Bool)
    (sign : List Nat → List Nat) (gc : List Nat)
    (chain : AccountAddress → Except Nat (Option Verifier.AccountCredential))
    (req : Verifier.ProofRequest) :
    (chain req.address = .ok none →
      (Verifier.check_proof_worker verify sign gc chain req).1 = .error .Credential) ∧
    (∀ cred, chain req.address = .ok (some cred) → cred.credId ≠ req.credential →
      (Verifier.check_proof_worker verify sign gc chain req).1 = .error .Credential) := by
  constructor
  · intro h
    simp [Verifier.check_proof_worker, h]
  · intro cred hc hne
    simp [Verifier.check_proof_worker, hc, hne]

/-- Witness for C10: the request against an account with no credential at
index 0 fails with `Credential`. -/
theorem c10_witness :
    (Verifier.check_proof_worker cexVerify cexSign [] cexChainNoCred cexRequest).1 =
      .error .Credential :=
  (c10_credential_error_covers_absent_and_mismatch cexVerify cexSign [] cexChainNoCred
    cexRequest).1 rfl
